import Mathlib

/-!
# Verification of the hexagolab transactional outbox relay subsystem

This file gives a shallow embedding, in Lean, of the core of the
`davicafu/hexagolab` repository: the outbox store adapters, the in-process
event bus, the relay workers (the polling-only worker, the hybrid
push+poll worker, and the registry-typed relayer), and the domain consumer
with its idempotency logic.  Each definition is translated from the Go
source named in its doc comment.  Machine-level details that cannot affect
the verified properties are abstracted as follows:

* UUIDs are modelled as `Nat` identifiers.
* `time.Time` values are modelled as `Nat` timestamps.
* The outcome of `json.Marshal` / `json.Unmarshal` on an opaque payload is
  modelled as a `Bool` field carried by the value (the Go code only
  branches on whether these calls succeed, never on the bytes themselves).
* Goroutines are flattened: the effect of a spawned goroutine is the state
  it produces when it runs, and `time.Sleep` is a no-op on state.
* Calls made by a worker are recorded in an explicit trace (`WAction`),
  so that temporal statements ("MarkOutboxProcessed is called only
  after...") become statements about the trace.
-/

namespace Hexagolab

/-- Trace of the observable calls a relay worker makes for an outbox event:
`publish id ok` records a `Publisher.Publish` call for the event with the
given id whose result was `ok` (`true` = `nil` error), and `mark id`
records a `MarkOutboxProcessed(id)` call. -/
inductive WAction where
  | publish (id : Nat) (ok : Bool)
  | mark (id : Nat)
deriving DecidableEq

/-- The event id an action refers to. -/
def WAction.aid : WAction → Nat
  | .publish i _ => i
  | .mark i => i

/-- `OutboxEvent` from `internal/user/domain/outbox.go` and
`shared/persistence/outbox_repo.go` (identical structs).
`payloadDecodes` models whether `json.Unmarshal` of the marshalled payload
into the registry's target type succeeds (the relayer only branches on
that outcome); `wellFormed` models whether the stored row scans cleanly
(UUID parses and the payload column is valid JSON), which is what the SQL
adapters branch on while reading rows. -/
structure OutboxEvent where
  id : Nat
  aggregateType : String
  aggregateId : String
  eventType : String
  payloadDecodes : Bool
  wellFormed : Bool
  createdAt : Nat
  processed : Bool
deriving DecidableEq

/-- The `ORDER BY created_at` relation used by the SQL adapters. -/
def byCreatedAt (a b : OutboxEvent) : Prop := a.createdAt ≤ b.createdAt

instance : DecidableRel byCreatedAt := fun a b => Nat.decLe a.createdAt b.createdAt

instance : IsTotal OutboxEvent byCreatedAt := ⟨fun a b => Nat.le_total a.createdAt b.createdAt⟩

instance : IsTrans OutboxEvent byCreatedAt := ⟨fun _ _ _ h h' => Nat.le_trans h h'⟩

namespace OutboxRepoSQL

/-- The rows selected by
`SELECT ... FROM outbox WHERE processed = 0 ORDER BY created_at LIMIT ?`:
the logical table is filtered to unprocessed rows, sorted ascending by
`created_at`, and truncated to `limit` rows.  Shared semantics of
`OutboxRepoSQLite.FetchPendingOutbox`
(`internal/shared/infra/platform/db/sqlite/outbox_repo.go`),
`OutboxRepoPostgres.FetchPendingOutbox` and
`OutboxRepoMongoDB.FetchPendingOutbox`
(`internal/infra/db/mongodb/outbox_repo.go`). -/
def pendingRows (store : List OutboxEvent) (limit : Nat) : List OutboxEvent :=
  ((store.filter (fun r => !r.processed)).insertionSort byCreatedAt).take limit

/-- `FetchPendingOutbox`: scanning a selected row fails (and the whole call
returns an error) when the row is malformed; otherwise the selected rows are
returned.  An empty selection returns `ok []`, never an error. -/
def FetchPendingOutbox (store : List OutboxEvent) (limit : Nat) :
    Except String (List OutboxEvent) :=
  let rows := pendingRows store limit
  if rows.all (fun r => r.wellFormed) then .ok rows else .error "invalid outbox row"

/-- `UPDATE outbox SET processed = 1 WHERE id = ?` followed by the
`RowsAffected` check: every row with the given id gets `processed = true`,
and the call succeeds (`true`) iff at least one row matched
(`MarkOutboxProcessed` of the SQLite, Postgres and MongoDB adapters). -/
def MarkOutboxProcessed (store : List OutboxEvent) (id : Nat) :
    List OutboxEvent × Bool :=
  (store.map (fun r => if r.id = id then { r with processed := true } else r),
   store.any (fun r => r.id = id))

end OutboxRepoSQL

namespace InMemoryUserRepo

/-- `InMemoryUserRepo.FetchPendingOutbox` (tests/mocks): clamps `limit` to
the slice length and returns a copy of the first `limit` entries of the
`Outbox` slice, in insertion order, with a `nil` error.  It neither filters
by `processed` nor sorts by `createdAt`. -/
def FetchPendingOutbox (outbox : List OutboxEvent) (limit : Nat) :
    Except String (List OutboxEvent) :=
  .ok (outbox.take limit)

/-- `InMemoryUserRepo.MarkOutboxProcessed` (tests/mocks): scans the
`Outbox` slice, removes the first entry with the given id and returns `nil`
(`true`); if no entry matches it returns `ErrUserNotFound` (`false`). -/
def MarkOutboxProcessed : List OutboxEvent → Nat → List OutboxEvent × Bool
  | [], _ => ([], false)
  | r :: rest, i =>
    if r.id = i then (rest, true)
    else
      let p := MarkOutboxProcessed rest i
      (r :: p.1, p.2)

end InMemoryUserRepo

namespace InMemoryEventBus

/-- One subscriber channel of `InMemoryEventBus`
(`internal/infra/events/inmemory_bus.go`): a buffered Go channel with a
fixed capacity, whose pending contents are the buffer. -/
structure Subscriber where
  capacity : Nat
  buffer : List String
deriving DecidableEq

/-- The non-blocking `select { case subChan <- event: default: }` in
`InMemoryEventBus.distribute`: the event is appended when the channel
buffer has room and silently dropped otherwise. -/
def trySend (msg : String) (s : Subscriber) : Subscriber :=
  if s.buffer.length < s.capacity then { s with buffer := s.buffer ++ [msg] } else s

/-- `InMemoryEventBus.distribute`: the marshalled event is offered to every
subscriber channel with a non-blocking send. -/
def distribute (subs : List Subscriber) (msg : String) : List Subscriber :=
  subs.map (trySend msg)

/-- `InMemoryEventBus.Publish`: marshal the event (the argument is the
outcome of `json.Marshal`); on a marshal error return that error with no
delivery.  Otherwise return `nil` immediately, spawning
`go b.distribute(...)` only when there is at least one subscriber.  The
second component is the subscriber state after the spawned goroutine has
run (flattened, since `Publish` itself never waits on it). -/
def Publish (marshalled : Except String String) (subs : List Subscriber) :
    Except String Unit × List Subscriber :=
  match marshalled with
  | .error e => (.error e, subs)
  | .ok bytes => (.ok (), if 0 < subs.length then distribute subs bytes else subs)

end InMemoryEventBus

namespace OutboxWorker

/-- The `for i := 0; i < maxRetries; i++` publish loop of
`OutboxWorker.publishAndMark` (`internal/user/application/outbox_worker.go`,
both the polling-only worker's inlined copy and the hybrid push+poll
worker's method).  `pub i` is the outcome of the `i`-th `Publish` call
(`true` = `nil`).  Returns the outcomes of the calls actually made, in
order, and whether the loop ended with `lastErr == nil`.  The
`time.Sleep(50ms)` between failed attempts does not affect state. -/
def attemptLoop (pub : Nat → Bool) : Nat → Nat → List Bool × Bool
  | _, 0 => ([], false)
  | i, Nat.succ b =>
    if pub i then ([true], true)
    else
      let rest := attemptLoop pub (i + 1) b
      (false :: rest.1, rest.2)

/-- `OutboxWorker.publishAndMark` for one event: publish with up to
`maxRetries = 3` attempts; if `lastErr != nil` log and return without
marking; otherwise call `MarkOutboxProcessed` (whose own failure is only
logged).  The trace records the `Publish` and mark calls made. -/
def publishAndMark (pub : Nat → Bool) (e : OutboxEvent) : List WAction :=
  (attemptLoop pub 0 3).1.map (fun ok => WAction.publish e.id ok) ++
    (if (attemptLoop pub 0 3).2 then [WAction.mark e.id] else [])

end OutboxWorker

namespace Relayer

/-- Per-event body of `relayer.Worker.publishAndMark`: resolve
`EventMetadata` by `eventType` in the registry (modelled by the list of
registered type keys — the worker only branches on presence); if absent,
log and return with no further calls.  Otherwise decode the payload into
the registry's target type; on decode failure log and return.  Otherwise
`Publish` once (`pubOk evt.id` is that single call's outcome); on failure
log and return without marking; on success call `MarkOutboxProcessed`
(failure to mark is only logged).  Returns the updated store and the trace
of calls. -/
def publishAndMark (reg : List String) (pubOk : Nat → Bool)
    (st : List OutboxEvent) (evt : OutboxEvent) :
    List OutboxEvent × List WAction :=
  if reg.contains evt.eventType then
    if evt.payloadDecodes then
      if pubOk evt.id then
        ((OutboxRepoSQL.MarkOutboxProcessed st evt.id).1,
         [WAction.publish evt.id true, WAction.mark evt.id])
      else (st, [WAction.publish evt.id false])
    else (st, [])
  else (st, [])

/-- Body of the `for _, evt := range events` loop of
`relayer.Worker.ProcessBatch`: run `publishAndMark` for one fetched event
against the current store and extend the call trace. -/
def step (reg : List String) (pubOk : Nat → Bool)
    (acc : List OutboxEvent × List WAction) (evt : OutboxEvent) :
    List OutboxEvent × List WAction :=
  let r := publishAndMark reg pubOk acc.1 evt
  (r.1, acc.2 ++ r.2)

/-- `relayer.Worker.ProcessBatch`: fetch pending events (against the SQL
store the relayer is wired to); on a fetch error log and return; otherwise
run `publishAndMark` on every fetched event sequentially, in fetch
order. -/
def ProcessBatch (reg : List String) (pubOk : Nat → Bool) (limit : Nat)
    (store : List OutboxEvent) : List OutboxEvent × List WAction :=
  match OutboxRepoSQL.FetchPendingOutbox store limit with
  | .error _ => (store, [])
  | .ok events => events.foldl (step reg pubOk) (store, [])

/-- The store after `n` ticks of the `relayer.Worker.Start` polling loop,
each tick running `ProcessBatch`.  `sched n` gives the publish outcomes
during cycle `n` (by event id). -/
def states (reg : List String) (sched : Nat → Nat → Bool) (limit : Nat)
    (s0 : List OutboxEvent) : Nat → List OutboxEvent
  | 0 => s0
  | Nat.succ n => (ProcessBatch reg (sched n) limit (states reg sched limit s0 n)).1

/-- The trace of calls made during cycle `n` of the polling loop. -/
def traceAt (reg : List String) (sched : Nat → Nat → Bool) (limit : Nat)
    (s0 : List OutboxEvent) (n : Nat) : List WAction :=
  (ProcessBatch reg (sched n) limit (states reg sched limit s0 n)).2

end Relayer

namespace UserConsumer

/-- `domain.User` (`internal/user/domain`), with the fields the consumer
path touches. -/
structure User where
  id : Nat
  email : String
  nombre : String
  birthDate : Nat
deriving DecidableEq

/-- Integration event `events.UserCreated`
(`internal/shared/domain/events`). -/
structure UserCreatedEvt where
  id : Nat
  email : String
  nombre : String
  birthDate : Nat
deriving DecidableEq

/-- Integration event `events.UserUpdated`. -/
structure UserUpdatedEvt where
  id : Nat
  email : String
  nombre : String
  birthDate : Nat
deriving DecidableEq

/-- The `data: rawBytes` field of a wire envelope, abstracted by what
`json.Unmarshal` of those bytes yields for each target type the consumer
tries (`none` = decode error). -/
structure DataBlob where
  asCreated : Option UserCreatedEvt
  asUpdated : Option UserUpdatedEvt
deriving DecidableEq

/-- `events.IntegrationEvent` (`internal/shared/events/base.go`):
`{type, timestamp, data}`. -/
structure IntegrationEvent where
  type : String
  timestamp : Nat
  data : DataBlob
deriving DecidableEq

/-- Log lines the consumer can emit, by level and site. -/
inductive LogEntry where
  | warnEnvelope
  | warnData
  | warnUnknownType
  | warnHandler
  | infoDuplicate
  | infoHandled
deriving DecidableEq

/-- Lookup in the read-side `Users` map (`InMemoryUserRepo.GetByID`,
reached through `UserService.GetUser`; absent key is
`ErrUserNotFound`). -/
def getUserById (users : List User) (i : Nat) : Option User :=
  users.find? (fun u => u.id = i)

/-- `UserService.CreateUser` against the read-side store
(`internal/user/application/user_service.go`): a new `User` is built with
`ID: uuid.New()` — a fresh identifier, here the parameter `freshId` —
and the fields from the call; `repo.Create` inserts it, failing with
`ErrUserAlreadyExists` (`false`) if a user with that fresh id already
exists.  (The outbox row the write model appends alongside is not modelled:
no claim concerns the consumer-side outbox.) -/
def CreateUser (users : List User) (freshId : Nat) (email nombre : String)
    (birthDate : Nat) : List User × Bool :=
  let u : User := { id := freshId, email := email, nombre := nombre, birthDate := birthDate }
  if (getUserById users u.id).isSome then (users, false)
  else (users ++ [u], true)

/-- `UserService.UpdateUser` against the read-side store:
`repo.Update` replaces the stored user, failing with `ErrUserNotFound`
(`false`) if absent. -/
def UpdateUser (users : List User) (u : User) : List User × Bool :=
  if (getUserById users u.id).isSome then
    (users.map (fun x => if x.id = u.id then u else x), true)
  else (users, false)

/-- `UserConsumer.HandleMessage`
(`internal/user/infra/inbound/events/user_consumer.go`).  `msg` is the
outcome of `json.Unmarshal` of the payload bytes into `IntegrationEvent`
(`none` = malformed envelope: log a warning and return).  Dispatch on
`base.Type`; `UnmarshalAndHandle` decodes `base.Data` into the typed event
and on failure logs a warning and returns.  The `user.created` handler
checks `GetUser(evt.ID)` first and treats a hit as a duplicate (`nil`);
otherwise it calls `CreateUser` (with fresh ids `freshId`), and
`withContext` maps an `ErrUserAlreadyExists` outcome to a duplicate log.
The `user.updated` handler fetches, applies the snapshot fields, and
writes back.  Unknown types are logged and dropped. -/
def HandleMessage (users : List User) (msg : Option IntegrationEvent)
    (freshId : Nat) : List User × LogEntry :=
  match msg with
  | none => (users, .warnEnvelope)
  | some env =>
    if env.type = "user.created" then
      match env.data.asCreated with
      | none => (users, .warnData)
      | some evt =>
        match getUserById users evt.id with
        | some _ => (users, .infoDuplicate)
        | none =>
          let r := CreateUser users freshId evt.email evt.nombre evt.birthDate
          if r.2 then (r.1, .infoHandled) else (r.1, .infoDuplicate)
    else if env.type = "user.updated" then
      match env.data.asUpdated with
      | none => (users, .warnData)
      | some evt =>
        match getUserById users evt.id with
        | none => (users, .warnHandler)
        | some u =>
          let u2 : User := { u with email := evt.email, nombre := evt.nombre,
                                    birthDate := evt.birthDate }
          let r := UpdateUser users u2
          (r.1, .infoHandled)
    else (users, .warnUnknownType)

end UserConsumer

/-- Whether a trace action is a `Publish` call. -/
def WAction.isPublishCall : WAction → Bool
  | .publish _ _ => true
  | .mark _ => false

/-- A registered, decodable, well-formed pending outbox row (used to
instantiate universally quantified theorems at a concrete input). -/
def sampleEvent : OutboxEvent :=
  { id := 1, aggregateType := "user", aggregateId := "1",
    eventType := "user.created", payloadDecodes := true, wellFormed := true,
    createdAt := 0, processed := false }

/-- A pending outbox row whose `eventType` has no registry entry. -/
def ghostEvent : OutboxEvent :=
  { id := 7, aggregateType := "user", aggregateId := "7",
    eventType := "user.ghost", payloadDecodes := true, wellFormed := true,
    createdAt := 0, processed := false }

/-- A pending row with the later `createdAt`, inserted first. -/
def rowLate : OutboxEvent :=
  { id := 1, aggregateType := "user", aggregateId := "1",
    eventType := "user.created", payloadDecodes := true, wellFormed := true,
    createdAt := 5, processed := false }

/-- A pending row with the earlier `createdAt`, inserted second. -/
def rowEarly : OutboxEvent :=
  { id := 2, aggregateType := "user", aggregateId := "2",
    eventType := "user.created", payloadDecodes := true, wellFormed := true,
    createdAt := 1, processed := false }

/-- A concrete `UserCreated` integration event. -/
def sampleCreatedEvt : UserConsumer.UserCreatedEvt :=
  { id := 1, email := "ana@example.com", nombre := "Ana", birthDate := 0 }

/-- The wire envelope carrying `sampleCreatedEvt`, decoding cleanly. -/
def sampleCreatedEnv : UserConsumer.IntegrationEvent :=
  { type := "user.created", timestamp := 0,
    data := { asCreated := some sampleCreatedEvt, asUpdated := none } }

/-!  ## Theorems  -/

/-- C6: for every byte sequence handed to the Domain Consumer, if decoding
the `IntegrationEvent` envelope fails (`msg = none`), or the inner event
data of a `user.created` / `user.updated` envelope fails to decode,
`HandleMessage` logs a warning and returns with the user store untouched —
no state mutation, no retry, no panic (the model is a total function that
returns normally in each case). -/
theorem c6_malformed_message_dropped :
    (∀ (users : List UserConsumer.User) (freshId : Nat),
      UserConsumer.HandleMessage users none freshId =
        (users, UserConsumer.LogEntry.warnEnvelope)) ∧
    (∀ (users : List UserConsumer.User) (freshId ts : Nat)
        (u : Option UserConsumer.UserUpdatedEvt),
      UserConsumer.HandleMessage users
        (some { type := "user.created", timestamp := ts,
                data := { asCreated := none, asUpdated := u } }) freshId =
        (users, UserConsumer.LogEntry.warnData)) ∧
    (∀ (users : List UserConsumer.User) (freshId ts : Nat)
        (c : Option UserConsumer.UserCreatedEvt),
      UserConsumer.HandleMessage users
        (some { type := "user.updated", timestamp := ts,
                data := { asCreated := c, asUpdated := none } }) freshId =
        (users, UserConsumer.LogEntry.warnData)) :=
  ⟨fun _ _ => rfl, fun _ _ _ _ => rfl, fun _ _ _ _ => rfl⟩

/-- C2 (code bug): the `user.created` handler's check-before-create looks
the user up by the event's id, but `UserService.CreateUser` stores the new
entity under a freshly generated uuid, so a second dispatch of the same
event never finds the entity created by the first one and creates a second
entity.  Evaluated here on the concrete failing input: the same well-formed
`user.created` envelope dispatched twice against an initially empty
read-side store (with fresh uuids 2 and 3) leaves TWO persisted users,
where the claim (and the code's own idempotency comments) demand one. -/
theorem c2_duplicate_dispatch_creates_second_entity :
    ((UserConsumer.HandleMessage [] (some sampleCreatedEnv) 2).1).length = 1 ∧
    ((UserConsumer.HandleMessage
        (UserConsumer.HandleMessage [] (some sampleCreatedEnv) 2).1
        (some sampleCreatedEnv) 3).1).length = 2 := by
  decide

/-- C8: the in-process bus's `Publish` on a marshalable event returns `nil`
without waiting on any subscriber, and the (asynchronously run) fan-out
delivers the event to each subscriber channel that has buffer room while
dropping it for each full subscriber only — every other subscriber's buffer
is unaffected by a full one. -/
theorem c8_publish_nonblocking_fanout (bytes : String)
    (subs : List InMemoryEventBus.Subscriber) :
    (InMemoryEventBus.Publish (.ok bytes) subs).1 = .ok () ∧
    (InMemoryEventBus.Publish (.ok bytes) subs).2 =
      subs.map (fun s =>
        if s.buffer.length < s.capacity
        then { s with buffer := s.buffer ++ [bytes] } else s) := by
  constructor
  · rfl
  · cases subs with
    | nil => rfl
    | cons a l =>
      simp [InMemoryEventBus.Publish, InMemoryEventBus.distribute,
        InMemoryEventBus.trySend]

/-- Helper: a non-blocking fan-out to subscribers whose buffers are all
full leaves every buffer unchanged. -/
theorem distribute_all_full (bytes : String)
    (subs : List InMemoryEventBus.Subscriber)
    (h : ∀ s ∈ subs, s.capacity ≤ s.buffer.length) :
    InMemoryEventBus.distribute subs bytes = subs := by
  induction subs with
  | nil => rfl
  | cons a l ih =>
    have ha : a.capacity ≤ a.buffer.length := h a (List.mem_cons_self a l)
    have hl : ∀ s ∈ l, s.capacity ≤ s.buffer.length :=
      fun s hs => h s (List.mem_cons_of_mem a hs)
    simp [InMemoryEventBus.distribute, InMemoryEventBus.trySend,
      Nat.not_lt.mpr ha] at *
    exact ih hl

/-- C10 (implicit): `Publish` of the in-process bus reports only
JSON-marshaling failures to the caller: a marshal error is returned
unchanged with no delivery; with zero subscribers it returns `nil`; and
even when every subscriber's buffer is full it returns `nil` and all
buffers stay as they were — delivery failures are never surfaced. -/
theorem c10_publish_error_only_marshal :
    (∀ (e : String) (subs : List InMemoryEventBus.Subscriber),
      InMemoryEventBus.Publish (.error e) subs = (.error e, subs)) ∧
    (∀ bytes : String,
      InMemoryEventBus.Publish (.ok bytes) ([] : List InMemoryEventBus.Subscriber) =
        (.ok (), [])) ∧
    (∀ (bytes : String) (subs : List InMemoryEventBus.Subscriber),
      (∀ s ∈ subs, s.capacity ≤ s.buffer.length) →
      InMemoryEventBus.Publish (.ok bytes) subs = (.ok (), subs)) := by
  refine ⟨fun _ _ => rfl, fun _ => rfl, fun bytes subs h => ?_⟩
  by_cases hs : 0 < subs.length
  · simp [InMemoryEventBus.Publish, hs, distribute_all_full bytes subs h]
  · simp [InMemoryEventBus.Publish, hs]

/-- Witness for C10 at a concrete input: one subscriber with capacity 0
(its buffer is full), publish succeeds and the buffer is untouched. -/
theorem c10_witness :
    InMemoryEventBus.Publish (.ok "x") [⟨0, []⟩] = (.ok (), [⟨0, []⟩]) :=
  c10_publish_error_only_marshal.2.2 "x" [⟨0, []⟩] (by decide)

/-- C3 (as stated) is false: the in-memory outbox store is one of the
outbox store implementations, and for rows inserted out of `createdAt`
order it returns them in insertion order — here `[rowLate, rowEarly]` with
`createdAt` 5 before `createdAt` 1 — which is not ascending by
`createdAt`. -/
theorem c3_counterexample_inmem_not_sorted :
    InMemoryUserRepo.FetchPendingOutbox [rowLate, rowEarly] 2 =
      .ok [rowLate, rowEarly] ∧
    ¬ List.Sorted byCreatedAt [rowLate, rowEarly] := by
  constructor
  · rfl
  · intro h
    have h5 : byCreatedAt rowLate rowEarly :=
      List.rel_of_sorted_cons h rowEarly (List.mem_singleton.mpr rfl)
    simp [byCreatedAt, rowLate, rowEarly] at h5

/-- C3 (amended): the SQL-backed implementations (SQLite, Postgres,
MongoDB) return only `processed = false` rows, ordered ascending by
`createdAt` regardless of the order of the underlying rows, at most `limit`
rows, and `ok []` (no error) when no pending row exists; the in-memory mock
instead returns the first `limit` entries of its outbox slice in insertion
order (never an error), without sorting by `createdAt`. -/
theorem c3_amended_fetch_contract :
    (∀ (store : List OutboxEvent) (limit : Nat),
        List.Sorted byCreatedAt (OutboxRepoSQL.pendingRows store limit) ∧
        (OutboxRepoSQL.pendingRows store limit).length ≤ limit ∧
        (∀ r ∈ OutboxRepoSQL.pendingRows store limit,
          r.processed = false ∧ r ∈ store) ∧
        (store.filter (fun r => !r.processed) = [] →
          OutboxRepoSQL.FetchPendingOutbox store limit = .ok [])) ∧
    (∀ (outbox : List OutboxEvent) (limit : Nat),
        InMemoryUserRepo.FetchPendingOutbox outbox limit =
          .ok (outbox.take limit) ∧
        (outbox.take limit).length ≤ limit) := by
  constructor
  · intro store limit
    refine ⟨?_, ?_, ?_, ?_⟩
    · exact (List.sorted_insertionSort byCreatedAt _).sublist
        (List.take_sublist _ _)
    · exact List.length_take_le limit
        ((store.filter (fun r => !r.processed)).insertionSort byCreatedAt)
    · intro r hr
      have hmem : r ∈ store.filter (fun x => !x.processed) :=
        (List.mem_insertionSort byCreatedAt).mp (List.take_subset _ _ hr)
      have hpend := List.mem_filter.mp hmem
      exact ⟨by simpa using hpend.2, hpend.1⟩
    · intro hempty
      simp [OutboxRepoSQL.FetchPendingOutbox, OutboxRepoSQL.pendingRows, hempty]
  · intro outbox limit
    exact ⟨rfl, List.length_take_le limit outbox⟩

/-- Witness for the amended C3: an empty store fetches to `ok []` with no
error. -/
theorem c3_amended_witness :
    OutboxRepoSQL.FetchPendingOutbox [] 5 = .ok [] :=
  (c3_amended_fetch_contract.1 [] 5).2.2.2 rfl

/-- Helper: marking a second time leaves the SQL store unchanged (the
`UPDATE` is a no-op on already-processed rows). -/
theorem sqlMark_state_idem (store : List OutboxEvent) (i : Nat) :
    (OutboxRepoSQL.MarkOutboxProcessed
       (OutboxRepoSQL.MarkOutboxProcessed store i).1 i).1 =
      (OutboxRepoSQL.MarkOutboxProcessed store i).1 := by
  simp only [OutboxRepoSQL.MarkOutboxProcessed, List.map_map]
  refine List.map_congr_left ?_
  intro r _
  by_cases h : r.id = i <;> simp [h]

/-- Helper: marking preserves which ids occur, hence the second call's
`RowsAffected` check gives the same answer as the first. -/
theorem sqlMark_any_id (store : List OutboxEvent) (i : Nat) :
    ((OutboxRepoSQL.MarkOutboxProcessed store i).1).any (fun r => r.id = i) =
      store.any (fun r => r.id = i) := by
  induction store with
  | nil => rfl
  | cons a l ih =>
    by_cases h : a.id = i
    · simp [OutboxRepoSQL.MarkOutboxProcessed, h]
    · simp [OutboxRepoSQL.MarkOutboxProcessed, h] at ih ⊢
      simp [ih]

/-- Helper: after a successful SQL mark, every row with that id is
processed (terminal). -/
theorem sqlMark_terminal (store : List OutboxEvent) (i : Nat) :
    ∀ r ∈ (OutboxRepoSQL.MarkOutboxProcessed store i).1,
      r.id = i → r.processed = true := by
  intro r hr hid
  simp only [OutboxRepoSQL.MarkOutboxProcessed, List.mem_map] at hr
  obtain ⟨r0, _, hEq⟩ := hr
  by_cases h : r0.id = i
  · rw [← hEq]; simp [h]
  · rw [← hEq] at hid; simp [h] at hid

/-- Helper: SQL mark on a store with no matching row is an error and leaves
the store unchanged. -/
theorem sqlMark_absent (store : List OutboxEvent) (i : Nat)
    (h : ∀ r ∈ store, r.id ≠ i) :
    OutboxRepoSQL.MarkOutboxProcessed store i = (store, false) := by
  have h1 : store.map (fun r => if r.id = i then { r with processed := true } else r)
      = store :=
    (List.map_congr_left (fun r hr => by simp [h r hr])).trans (List.map_id store)
  have h2 : (store.any fun r => r.id = i) = false :=
    List.any_eq_false.mpr (fun r hr => by simp [h r hr])
  simp only [OutboxRepoSQL.MarkOutboxProcessed, h1, h2]

/-- Helper: under unique ids, after the in-memory mark removed the row no
row with that id remains. -/
theorem inMemMark_not_mem (outbox : List OutboxEvent) (i : Nat)
    (hnd : (outbox.map (fun r => r.id)).Nodup) :
    ∀ r ∈ (InMemoryUserRepo.MarkOutboxProcessed outbox i).1, r.id ≠ i := by
  induction outbox with
  | nil => intro r hr; simp [InMemoryUserRepo.MarkOutboxProcessed] at hr
  | cons a l ih =>
    have hnd' := hnd
    rw [List.map_cons, List.nodup_cons] at hnd'
    by_cases h : a.id = i
    · intro r hr
      simp [InMemoryUserRepo.MarkOutboxProcessed, h] at hr
      intro hri
      exact hnd'.1 (by
        rw [h, ← hri]
        exact List.mem_map_of_mem (fun x => x.id) hr)
    · intro r hr
      simp [InMemoryUserRepo.MarkOutboxProcessed, h] at hr
      rcases hr with hr | hr
      · rw [hr]; exact h
      · exact ih hnd'.2 r hr

/-- Helper: in-memory mark on an outbox with no matching row returns
`ErrUserNotFound` and leaves the slice unchanged. -/
theorem inMemMark_absent (outbox : List OutboxEvent) (i : Nat)
    (h : ∀ r ∈ outbox, r.id ≠ i) :
    InMemoryUserRepo.MarkOutboxProcessed outbox i = (outbox, false) := by
  induction outbox with
  | nil => rfl
  | cons a l ih =>
    have ha := h a (List.mem_cons_self a l)
    have hl := ih (fun r hr => h r (List.mem_cons_of_mem a hr))
    simp [InMemoryUserRepo.MarkOutboxProcessed, ha, hl]

/-- C7: `MarkOutboxProcessed` is idempotent from the caller's perspective
and errors on an unknown id, in every store implementation.  SQL stores
(SQLite/Postgres/MongoDB semantics): the second call for the same id leaves
the store unchanged and returns the same result as the first, every row
with the marked id is terminally processed, and an id with no row yields
`(store, error)`.  In-memory mock (which deletes the row instead of
flagging, so "absent" is its terminal state): under unique ids the second
call leaves the state of the first call unchanged, no row with the id
remains (terminal), and an unknown id yields `ErrUserNotFound` with the
slice unchanged. -/
theorem c7_mark_idempotent_and_absent_error :
    (∀ (store : List OutboxEvent) (i : Nat),
        (OutboxRepoSQL.MarkOutboxProcessed
           (OutboxRepoSQL.MarkOutboxProcessed store i).1 i).1 =
          (OutboxRepoSQL.MarkOutboxProcessed store i).1 ∧
        (OutboxRepoSQL.MarkOutboxProcessed
           (OutboxRepoSQL.MarkOutboxProcessed store i).1 i).2 =
          (OutboxRepoSQL.MarkOutboxProcessed store i).2 ∧
        (∀ r ∈ (OutboxRepoSQL.MarkOutboxProcessed store i).1,
          r.id = i → r.processed = true) ∧
        ((∀ r ∈ store, r.id ≠ i) →
          OutboxRepoSQL.MarkOutboxProcessed store i = (store, false))) ∧
    (∀ (outbox : List OutboxEvent) (i : Nat),
        (outbox.map (fun r => r.id)).Nodup →
        (InMemoryUserRepo.MarkOutboxProcessed
           (InMemoryUserRepo.MarkOutboxProcessed outbox i).1 i).1 =
          (InMemoryUserRepo.MarkOutboxProcessed outbox i).1 ∧
        (∀ r ∈ (InMemoryUserRepo.MarkOutboxProcessed outbox i).1, r.id ≠ i) ∧
        ((∀ r ∈ outbox, r.id ≠ i) →
          InMemoryUserRepo.MarkOutboxProcessed outbox i = (outbox, false))) := by
  constructor
  · intro store i
    refine ⟨sqlMark_state_idem store i, ?_, sqlMark_terminal store i,
      sqlMark_absent store i⟩
    show ((OutboxRepoSQL.MarkOutboxProcessed store i).1).any _ = _
    exact sqlMark_any_id store i
  · intro outbox i hnd
    have hterm := inMemMark_not_mem outbox i hnd
    refine ⟨?_, hterm, inMemMark_absent outbox i⟩
    rw [inMemMark_absent _ i hterm]

/-- Witness for C7 at a concrete input: id 99 has no row, so both store
flavors report an error and leave the store unchanged. -/
theorem c7_witness :
    OutboxRepoSQL.MarkOutboxProcessed [rowEarly] 99 = ([rowEarly], false) ∧
    InMemoryUserRepo.MarkOutboxProcessed [rowEarly] 99 = ([rowEarly], false) :=
  ⟨(c7_mark_idempotent_and_absent_error.1 [rowEarly] 99).2.2.2 (by decide),
   (c7_mark_idempotent_and_absent_error.2 [rowEarly] 99 (by decide)).2.2
     (by decide)⟩

/-- Helper: when the retry loop reports success, the publish outcomes it
saw are a run of failures ended by the one success it broke on. -/
theorem attemptLoop_true_shape (pub : Nat → Bool) :
    ∀ (b i : Nat), (OutboxWorker.attemptLoop pub i b).2 = true →
      ∃ k, (OutboxWorker.attemptLoop pub i b).1 =
        List.replicate k false ++ [true] := by
  intro b
  induction b with
  | zero => intro i h; simp [OutboxWorker.attemptLoop] at h
  | succ b ih =>
    intro i h
    by_cases hp : pub i
    · exact ⟨0, by simp [OutboxWorker.attemptLoop, hp]⟩
    · rw [OutboxWorker.attemptLoop] at h ⊢
      simp only [hp, Bool.false_eq_true, if_false] at h ⊢
      obtain ⟨k, hk⟩ := ih (i + 1) h
      exact ⟨k + 1, by simp [hk, List.replicate_succ]⟩

/-- C1: in every relay worker variant — the polling-only worker and the
hybrid push+poll worker (their identical `publishAndMark` retry loop is
`OutboxWorker.publishAndMark`) and the registry-typed relayer
(`Relayer.publishAndMark`) — a `MarkOutboxProcessed` call for an event
appears in the per-event call trace only immediately after a `Publish`
call for that event that returned success; on every publish failure path
no mark call is made. -/
theorem c1_mark_only_after_successful_publish (pub : Nat → Bool)
    (reg : List String) (pubOk : Nat → Bool) (st : List OutboxEvent)
    (e : OutboxEvent) :
    (WAction.mark e.id ∈ OutboxWorker.publishAndMark pub e →
      ∃ pre, OutboxWorker.publishAndMark pub e =
        pre ++ [WAction.publish e.id true, WAction.mark e.id]) ∧
    (WAction.mark e.id ∈ (Relayer.publishAndMark reg pubOk st e).2 →
      ∃ pre, (Relayer.publishAndMark reg pubOk st e).2 =
        pre ++ [WAction.publish e.id true, WAction.mark e.id]) := by
  constructor
  · intro hmem
    cases hr : (OutboxWorker.attemptLoop pub 0 3).2 with
    | false =>
      exfalso
      unfold OutboxWorker.publishAndMark at hmem
      rw [hr] at hmem
      simp at hmem
    | true =>
      obtain ⟨k, hk⟩ := attemptLoop_true_shape pub 3 0 hr
      refine ⟨List.replicate k (WAction.publish e.id false), ?_⟩
      unfold OutboxWorker.publishAndMark
      rw [hr, hk]
      simp [List.replicate_succ]
  · intro hmem
    cases h1 : reg.contains e.eventType with
    | false =>
      exfalso; unfold Relayer.publishAndMark at hmem; rw [h1] at hmem
      simp at hmem
    | true =>
      cases h2 : e.payloadDecodes with
      | false =>
        exfalso; unfold Relayer.publishAndMark at hmem; rw [h1, h2] at hmem
        simp at hmem
      | true =>
        cases h3 : pubOk e.id with
        | false =>
          exfalso; unfold Relayer.publishAndMark at hmem
          rw [h1, h2, h3] at hmem
          simp at hmem
        | true =>
          refine ⟨[], ?_⟩
          unfold Relayer.publishAndMark
          rw [h1, h2, h3]
          simp

/-- Witness for C1: with an always-succeeding publisher the hybrid
worker's per-event trace ends in a successful publish followed by the
mark. -/
theorem c1_witness :
    ∃ pre, OutboxWorker.publishAndMark (fun _ => true) sampleEvent =
      pre ++ [WAction.publish sampleEvent.id true,
              WAction.mark sampleEvent.id] :=
  (c1_mark_only_after_successful_publish (fun _ => true) ["user.created"]
    (fun _ => true) [] sampleEvent).1 (by decide)

/-- C5 (as stated) is false for the registry-typed relayer: with an
always-failing publisher its per-event processing makes exactly ONE
`Publish` call — not the 3 in-pass attempts the claim asserts for every
relay worker. -/
theorem c5_counterexample_relayer_single_attempt :
    ((Relayer.publishAndMark ["user.created"] (fun _ => false)
        [sampleEvent] sampleEvent).2.countP WAction.isPublishCall) = 1 ∧
    ¬ ((Relayer.publishAndMark ["user.created"] (fun _ => false)
        [sampleEvent] sampleEvent).2.countP WAction.isPublishCall) = 3 := by
  decide

/-- Helper: with an always-failing publisher a relayer processing pass
never changes the store. -/
theorem relay_fold_store_const (reg : List String) (l : List OutboxEvent) :
    ∀ (st : List OutboxEvent) (tr : List WAction),
      (l.foldl (Relayer.step reg (fun _ => false)) (st, tr)).1 = st := by
  induction l with
  | nil => intro st tr; rfl
  | cons a l ih =>
    intro st tr
    have hstep : (Relayer.publishAndMark reg (fun _ => false) st a).1 = st := by
      unfold Relayer.publishAndMark
      cases reg.contains a.eventType <;> cases a.payloadDecodes <;> simp
    rw [List.foldl_cons]
    exact (ih (Relayer.publishAndMark reg (fun _ => false) st a).1
      (tr ++ (Relayer.publishAndMark reg (fun _ => false) st a).2)).trans hstep

/-- Helper: `ProcessBatch` with an always-failing publisher leaves the
store exactly as it was. -/
theorem relay_allfail_store_const (reg : List String) (limit : Nat)
    (store : List OutboxEvent) :
    (Relayer.ProcessBatch reg (fun _ => false) limit store).1 = store := by
  unfold Relayer.ProcessBatch
  cases h : OutboxRepoSQL.FetchPendingOutbox store limit with
  | error e => rfl
  | ok events => exact relay_fold_store_const reg events store []

/-- C5 (amended): on publish failure the polling-only and hybrid workers
retry up to 3 attempts in total (with a short fixed delay) within the same
pass, while the registry-typed relayer makes a single publish attempt per
pass; in every variant, when all in-pass attempts fail
`MarkOutboxProcessed` is not called (no mark in the trace), the store is
left unchanged, and a later fetch returns exactly what it would have
before the pass. -/
theorem c5_amended_retry_budget :
    (∀ e : OutboxEvent, OutboxWorker.publishAndMark (fun _ => false) e =
        List.replicate 3 (WAction.publish e.id false)) ∧
    (∀ (reg : List String) (st : List OutboxEvent) (e : OutboxEvent),
        reg.contains e.eventType = true → e.payloadDecodes = true →
        Relayer.publishAndMark reg (fun _ => false) st e =
          (st, [WAction.publish e.id false])) ∧
    (∀ (reg : List String) (limit : Nat) (store : List OutboxEvent),
        (Relayer.ProcessBatch reg (fun _ => false) limit store).1 = store) ∧
    (∀ (reg : List String) (limit : Nat) (store : List OutboxEvent),
        OutboxRepoSQL.FetchPendingOutbox
            ((Relayer.ProcessBatch reg (fun _ => false) limit store).1) limit =
          OutboxRepoSQL.FetchPendingOutbox store limit) := by
  refine ⟨fun e => rfl, ?_, relay_allfail_store_const, ?_⟩
  · intro reg st e h1 h2
    unfold Relayer.publishAndMark
    rw [h1, h2]
    simp
  · intro reg limit store
    rw [relay_allfail_store_const reg limit store]

/-- Witness for the amended C5 at a concrete input: a registered,
decodable event under an always-failing publisher gets exactly one publish
call and the store is untouched. -/
theorem c5_amended_witness :
    Relayer.publishAndMark ["user.created"] (fun _ => false)
        [sampleEvent] sampleEvent =
      ([sampleEvent], [WAction.publish sampleEvent.id false]) :=
  c5_amended_retry_budget.2.1 ["user.created"] [sampleEvent] sampleEvent
    (by decide) (by decide)

/-- Helper: exhaustive characterization of the relayer's per-event
processing: either it makes no call (unregistered type or undecodable
payload) and the store is untouched, or the single publish fails and the
store is untouched, or the publish succeeds and the event is marked. -/
theorem relay_pam_char (reg : List String) (pubOk : Nat → Bool)
    (st : List OutboxEvent) (evt : OutboxEvent) :
    ((Relayer.publishAndMark reg pubOk st evt).1 = st ∧
       (Relayer.publishAndMark reg pubOk st evt).2 = []) ∨
    (reg.contains evt.eventType = true ∧
       (Relayer.publishAndMark reg pubOk st evt).1 = st ∧
       (Relayer.publishAndMark reg pubOk st evt).2 =
         [WAction.publish evt.id false]) ∨
    (reg.contains evt.eventType = true ∧
       (Relayer.publishAndMark reg pubOk st evt).1 =
         (OutboxRepoSQL.MarkOutboxProcessed st evt.id).1 ∧
       (Relayer.publishAndMark reg pubOk st evt).2 =
         [WAction.publish evt.id true, WAction.mark evt.id]) := by
  unfold Relayer.publishAndMark
  cases hc : reg.contains evt.eventType
  · simp
  · cases evt.payloadDecodes
    · simp
    · cases pubOk evt.id <;> simp

/-- Helper: each row of a marked store comes from a row of the original
store, either unchanged or with its `processed` flag raised. -/
theorem sqlMark_mem_shape (st : List OutboxEvent) (i : Nat) :
    ∀ r ∈ (OutboxRepoSQL.MarkOutboxProcessed st i).1,
      ∃ r0 ∈ st, r = r0 ∨ r = { r0 with processed := true } := by
  intro r hr
  simp only [OutboxRepoSQL.MarkOutboxProcessed, List.mem_map] at hr
  obtain ⟨r0, h0, hEq⟩ := hr
  by_cases h : r0.id = i
  · exact ⟨r0, h0, Or.inr (by rw [← hEq]; simp [h])⟩
  · exact ⟨r0, h0, Or.inl (by rw [← hEq]; simp [h])⟩

/-- Helper: marking one id cannot unmark rows of another (or the same)
id. -/
theorem allMarked_sqlMark_mono (st : List OutboxEvent) (i j : Nat)
    (h : ∀ r ∈ st, r.id = j → r.processed = true) :
    ∀ r ∈ (OutboxRepoSQL.MarkOutboxProcessed st i).1,
      r.id = j → r.processed = true := by
  intro r hr hj
  obtain ⟨r0, h0, hc⟩ := sqlMark_mem_shape st i r hr
  cases hc with
  | inl heq => rw [heq] at hj ⊢; exact h r0 h0 hj
  | inr heq => rw [heq]

/-- Helper: a row whose id is not the marked one passes through the mark
update unchanged. -/
theorem sqlMark_mem_of_ne (st : List OutboxEvent) (i : Nat) (e : OutboxEvent)
    (he : e ∈ st) (hne : e.id ≠ i) :
    e ∈ (OutboxRepoSQL.MarkOutboxProcessed st i).1 := by
  unfold OutboxRepoSQL.MarkOutboxProcessed
  refine List.mem_map.mpr ⟨e, he, ?_⟩
  show (if e.id = i then { e with processed := true } else e) = e
  rw [if_neg hne]

/-- Helper: marking preserves the number of rows. -/
theorem sqlMark_length (st : List OutboxEvent) (i : Nat) :
    (OutboxRepoSQL.MarkOutboxProcessed st i).1.length = st.length := by
  simp [OutboxRepoSQL.MarkOutboxProcessed]

/-- Helper: the relayer's processing loop never lowers a `processed`
flag. -/
theorem relay_fold_allMarked (reg : List String) (pubOk : Nat → Bool)
    (j : Nat) :
    ∀ (l : List OutboxEvent) (st : List OutboxEvent) (tr : List WAction),
      (∀ r ∈ st, r.id = j → r.processed = true) →
      ∀ r ∈ (l.foldl (Relayer.step reg pubOk) (st, tr)).1,
        r.id = j → r.processed = true := by
  intro l
  induction l with
  | nil => exact fun st tr h => h
  | cons a l ih =>
    intro st tr h
    rw [List.foldl_cons]
    refine ih (Relayer.publishAndMark reg pubOk st a).1
      (tr ++ (Relayer.publishAndMark reg pubOk st a).2) ?_
    rcases relay_pam_char reg pubOk st a with ⟨hs, _⟩ | ⟨_, hs, _⟩ | ⟨_, hs, _⟩
    · rw [hs]; exact h
    · rw [hs]; exact h
    · rw [hs]; exact allMarked_sqlMark_mono st a.id j h

/-- Helper: one loop step, written as an explicit pair. -/
theorem relay_step_eq (reg : List String) (pubOk : Nat → Bool)
    (acc : List OutboxEvent × List WAction) (evt : OutboxEvent) :
    Relayer.step reg pubOk acc evt =
      ((Relayer.publishAndMark reg pubOk acc.1 evt).1,
       acc.2 ++ (Relayer.publishAndMark reg pubOk acc.1 evt).2) := rfl

/-- Helper: if the loop's trace records a successful publish for an id,
every row with that id is processed in the loop's final store. -/
theorem relay_fold_publish_marks (reg : List String) (pubOk : Nat → Bool)
    (j : Nat) :
    ∀ (l : List OutboxEvent) (st : List OutboxEvent) (tr : List WAction),
      WAction.publish j true ∈ (l.foldl (Relayer.step reg pubOk) (st, tr)).2 →
      WAction.publish j true ∈ tr ∨
      (∀ r ∈ (l.foldl (Relayer.step reg pubOk) (st, tr)).1,
        r.id = j → r.processed = true) := by
  intro l
  induction l with
  | nil => exact fun st tr h => Or.inl h
  | cons a l ih =>
    intro st tr h
    rw [List.foldl_cons, relay_step_eq] at h ⊢
    rcases relay_pam_char reg pubOk st a with ⟨hs, htr⟩ | ⟨_, hs, htr⟩ | ⟨_, hs, htr⟩
    · rw [hs, htr, List.append_nil] at h ⊢
      exact ih st tr h
    · rw [hs, htr] at h ⊢
      rcases ih st (tr ++ [WAction.publish a.id false]) h with hmem | hall
      · rcases List.mem_append.mp hmem with hmem | hmem
        · exact Or.inl hmem
        · rw [List.mem_singleton] at hmem
          simp at hmem
      · exact Or.inr hall
    · rw [hs, htr] at h ⊢
      rcases ih _ (tr ++ [WAction.publish a.id true, WAction.mark a.id]) h with
        hmem | hall
      · rcases List.mem_append.mp hmem with hmem | hmem
        · exact Or.inl hmem
        · have hj : j = a.id := by simpa using hmem
          subst hj
          exact Or.inr (relay_fold_allMarked reg pubOk a.id l _ _
            (sqlMark_terminal st a.id))
      · exact Or.inr hall

/-- Helper: one processing pass never lowers a `processed` flag. -/
theorem relay_ProcessBatch_allMarked (reg : List String) (pubOk : Nat → Bool)
    (limit : Nat) (store : List OutboxEvent) (j : Nat)
    (h : ∀ r ∈ store, r.id = j → r.processed = true) :
    ∀ r ∈ (Relayer.ProcessBatch reg pubOk limit store).1,
      r.id = j → r.processed = true := by
  unfold Relayer.ProcessBatch
  cases hf : OutboxRepoSQL.FetchPendingOutbox store limit with
  | error err => exact h
  | ok events => exact relay_fold_allMarked reg pubOk j events store [] h

/-- Helper: a successful publish for an id during a pass leaves every row
with that id processed at the end of the pass. -/
theorem relay_ProcessBatch_publish_marks (reg : List String)
    (pubOk : Nat → Bool) (limit : Nat) (store : List OutboxEvent) (j : Nat)
    (h : WAction.publish j true ∈ (Relayer.ProcessBatch reg pubOk limit store).2) :
    ∀ r ∈ (Relayer.ProcessBatch reg pubOk limit store).1,
      r.id = j → r.processed = true := by
  unfold Relayer.ProcessBatch at h ⊢
  cases hf : OutboxRepoSQL.FetchPendingOutbox store limit with
  | error err => rw [hf] at h; simp at h
  | ok events =>
    rw [hf] at h
    rcases relay_fold_publish_marks reg pubOk j events store [] h with hmem | hall
    · simp at hmem
    · exact hall

/-- Helper: once every row of an id is processed, it stays processed in
all later polling cycles. -/
theorem relay_states_allMarked (reg : List String) (sched : Nat → Nat → Bool)
    (limit : Nat) (s0 : List OutboxEvent) (j n : Nat)
    (h : ∀ r ∈ Relayer.states reg sched limit s0 n, r.id = j → r.processed = true) :
    ∀ k, n ≤ k →
      ∀ r ∈ Relayer.states reg sched limit s0 k, r.id = j → r.processed = true := by
  intro k hk
  induction k, hk using Nat.le_induction with
  | base => exact h
  | succ k hk ih =>
    show ∀ r ∈ (Relayer.ProcessBatch reg (sched k) limit
        (Relayer.states reg sched limit s0 k)).1, r.id = j → r.processed = true
    exact relay_ProcessBatch_allMarked reg (sched k) limit _ j ih

/-- Helper: every row selected by the SQL fetch is a row of the store. -/
theorem pendingRows_subset (store : List OutboxEvent) (limit : Nat) :
    ∀ r ∈ OutboxRepoSQL.pendingRows store limit, r ∈ store := by
  intro r hr
  exact (List.mem_filter.mp
    ((List.mem_insertionSort byCreatedAt).mp (List.take_subset _ _ hr))).1

/-- Helper: a pending row of an all-well-formed store within the fetch
limit is returned by `FetchPendingOutbox` (with no error). -/
theorem fetch_complete (st : List OutboxEvent) (limit : Nat) (r : OutboxEvent)
    (hr : r ∈ st) (hp : r.processed = false)
    (hwf : ∀ x ∈ st, x.wellFormed = true)
    (hlim : (st.filter (fun x => !x.processed)).length ≤ limit) :
    ∃ rows, OutboxRepoSQL.FetchPendingOutbox st limit = .ok rows ∧ r ∈ rows := by
  have hlen : ((st.filter (fun x => !x.processed)).insertionSort
      byCreatedAt).length ≤ limit := by
    rw [(List.perm_insertionSort byCreatedAt _).length_eq]; exact hlim
  have htake : OutboxRepoSQL.pendingRows st limit =
      (st.filter (fun x => !x.processed)).insertionSort byCreatedAt :=
    List.take_of_length_le hlen
  have hrmem : r ∈ OutboxRepoSQL.pendingRows st limit := by
    rw [htake, List.mem_insertionSort]
    exact List.mem_filter.mpr ⟨hr, by simp [hp]⟩
  have hall : (OutboxRepoSQL.pendingRows st limit).all
      (fun x => x.wellFormed) = true :=
    List.all_eq_true.mpr
      (fun x hx => hwf x (pendingRows_subset st limit x hx))
  refine ⟨OutboxRepoSQL.pendingRows st limit, ?_, hrmem⟩
  simp [OutboxRepoSQL.FetchPendingOutbox, hall]

/-- C9 (at-least-once): in the registry-typed relayer's polling loop, if
some cycle's trace contains a successful `Publish` for an event id, then
from the next cycle on every store row with that id is Processed; and any
pending row of an all-well-formed store whose pending set fits in the
batch size is fetched (with success) on each cycle while pending. -/
theorem c9_at_least_once_processed (reg : List String)
    (sched : Nat → Nat → Bool) (limit : Nat) (s0 : List OutboxEvent)
    (j : Nat)
    (h : ∃ n, WAction.publish j true ∈ Relayer.traceAt reg sched limit s0 n) :
    (∃ m, ∀ k, m ≤ k →
       ∀ r ∈ Relayer.states reg sched limit s0 k,
         r.id = j → r.processed = true) ∧
    (∀ (st : List OutboxEvent) (r : OutboxEvent), r ∈ st →
       r.processed = false → (∀ x ∈ st, x.wellFormed = true) →
       (st.filter (fun x => !x.processed)).length ≤ limit →
       ∃ rows, OutboxRepoSQL.FetchPendingOutbox st limit = .ok rows ∧
         r ∈ rows) := by
  constructor
  · obtain ⟨n, hn⟩ := h
    refine ⟨n + 1, ?_⟩
    have hbase : ∀ r ∈ Relayer.states reg sched limit s0 (n + 1),
        r.id = j → r.processed = true := by
      show ∀ r ∈ (Relayer.ProcessBatch reg (sched n) limit
          (Relayer.states reg sched limit s0 n)).1, r.id = j → r.processed = true
      exact relay_ProcessBatch_publish_marks reg (sched n) limit _ j hn
    exact relay_states_allMarked reg sched limit s0 j (n + 1) hbase
  · exact fun st r hr hp hwf hlim => fetch_complete st limit r hr hp hwf hlim

/-- Witness for C9: one registered pending event, publisher always
succeeds; the publish of cycle 0 succeeds, so the event is processed from
cycle 1 on. -/
theorem c9_witness :
    ∃ m, ∀ k, m ≤ k →
      ∀ r ∈ Relayer.states ["user.created"] (fun _ _ => true) 10
          [sampleEvent] k,
        r.id = 1 → r.processed = true :=
  (c9_at_least_once_processed ["user.created"] (fun _ _ => true) 10
    [sampleEvent] 1 ⟨0, by decide⟩).1

/-- Helper: a fetch that succeeds returns rows of the store. -/
theorem fetch_ok_subset (store : List OutboxEvent) (limit : Nat)
    (events : List OutboxEvent)
    (h : OutboxRepoSQL.FetchPendingOutbox store limit = .ok events) :
    ∀ evt ∈ events, evt ∈ store := by
  by_cases hall : (OutboxRepoSQL.pendingRows store limit).all
      (fun x => x.wellFormed) = true
  · simp only [OutboxRepoSQL.FetchPendingOutbox, hall, if_true] at h
    rw [← Except.ok.injEq _ _ |>.mp h]
    exact pendingRows_subset store limit
  · simp only [OutboxRepoSQL.FetchPendingOutbox] at h
    rw [if_neg hall] at h
    cases h

/-- Helper: the loop never touches an event whose id no registered fetched
event shares: the event stays in the store, no trace action carries its
id, and every resulting row keeps its original id, type and
well-formedness, with the row count unchanged. -/
theorem relay_fold_no_touch (reg : List String) (pubOk : Nat → Bool)
    (e : OutboxEvent) :
    ∀ (l : List OutboxEvent) (st : List OutboxEvent) (tr : List WAction),
      (∀ evt ∈ l, reg.contains evt.eventType = true → evt.id ≠ e.id) →
      (e ∈ st → e ∈ (l.foldl (Relayer.step reg pubOk) (st, tr)).1) ∧
      (∀ a ∈ (l.foldl (Relayer.step reg pubOk) (st, tr)).2,
        a ∈ tr ∨ WAction.aid a ≠ e.id) ∧
      (∀ x ∈ (l.foldl (Relayer.step reg pubOk) (st, tr)).1,
        ∃ x0 ∈ st, x.id = x0.id ∧ x.eventType = x0.eventType ∧
          x.wellFormed = x0.wellFormed) ∧
      (l.foldl (Relayer.step reg pubOk) (st, tr)).1.length = st.length := by
  intro l
  induction l with
  | nil =>
    intro st tr _
    exact ⟨fun he => he, fun a ha => Or.inl ha,
      fun x hx => ⟨x, hx, rfl, rfl, rfl⟩, rfl⟩
  | cons a l ih =>
    intro st tr hl
    have ha := hl a (List.mem_cons_self a l)
    have hl' : ∀ evt ∈ l, reg.contains evt.eventType = true → evt.id ≠ e.id :=
      fun evt hevt => hl evt (List.mem_cons_of_mem a hevt)
    rw [List.foldl_cons, relay_step_eq]
    rcases relay_pam_char reg pubOk st a with ⟨hs, htr⟩ | ⟨hc, hs, htr⟩ |
      ⟨hc, hs, htr⟩
    · rw [hs, htr, List.append_nil]
      exact ih st tr hl'
    · rw [hs, htr]
      obtain ⟨ihmem, ihtr, ihshape, ihlen⟩ :=
        ih st (tr ++ [WAction.publish a.id false]) hl'
      refine ⟨ihmem, ?_, ihshape, ihlen⟩
      intro x hx
      rcases ihtr x hx with hx' | hx'
      · rcases List.mem_append.mp hx' with hx'' | hx''
        · exact Or.inl hx''
        · rw [List.mem_singleton] at hx''
          subst hx''
          exact Or.inr (ha hc)
      · exact Or.inr hx'
    · have hne : a.id ≠ e.id := ha hc
      rw [hs, htr]
      obtain ⟨ihmem, ihtr, ihshape, ihlen⟩ :=
        ih (OutboxRepoSQL.MarkOutboxProcessed st a.id).1
          (tr ++ [WAction.publish a.id true, WAction.mark a.id]) hl'
      refine ⟨?_, ?_, ?_, ?_⟩
      · intro he
        exact ihmem (sqlMark_mem_of_ne st a.id e he (fun hid => hne hid.symm))
      · intro x hx
        rcases ihtr x hx with hx' | hx'
        · rcases List.mem_append.mp hx' with hx'' | hx''
          · exact Or.inl hx''
          · rcases List.mem_cons.mp hx'' with hx3 | hx3
            · subst hx3; exact Or.inr hne
            · rw [List.mem_singleton] at hx3
              subst hx3; exact Or.inr hne
        · exact Or.inr hx'
      · intro x hx
        obtain ⟨x1, hx1, hid1, hty1, hwf1⟩ := ihshape x hx
        obtain ⟨x0, hx0, hc0⟩ := sqlMark_mem_shape st a.id x1 hx1
        rcases hc0 with heq | heq
        · exact ⟨x0, hx0, heq ▸ hid1, heq ▸ hty1, heq ▸ hwf1⟩
        · refine ⟨x0, hx0, ?_, ?_, ?_⟩
          · rw [hid1, heq]
          · rw [hty1, heq]
          · rw [hwf1, heq]
      · rw [ihlen]
        exact sqlMark_length st a.id

/-- Helper: one pass of the relayer leaves an event of an unregistered
type untouched: it stays in the store, no call trace action carries its
id, and the pass preserves each row's id, type and well-formedness and the
row count. -/
theorem relay_ProcessBatch_no_touch (reg : List String) (pubOk : Nat → Bool)
    (limit : Nat) (store : List OutboxEvent) (e : OutboxEvent)
    (hreg : reg.contains e.eventType = false)
    (hids : ∀ r ∈ store, r.id = e.id → r.eventType = e.eventType) :
    (e ∈ store → e ∈ (Relayer.ProcessBatch reg pubOk limit store).1) ∧
    (∀ a ∈ (Relayer.ProcessBatch reg pubOk limit store).2,
      WAction.aid a ≠ e.id) ∧
    (∀ x ∈ (Relayer.ProcessBatch reg pubOk limit store).1,
      ∃ x0 ∈ store, x.id = x0.id ∧ x.eventType = x0.eventType ∧
        x.wellFormed = x0.wellFormed) ∧
    (Relayer.ProcessBatch reg pubOk limit store).1.length = store.length := by
  unfold Relayer.ProcessBatch
  cases hf : OutboxRepoSQL.FetchPendingOutbox store limit with
  | error err =>
    exact ⟨fun he => he, fun a ha => absurd ha (List.not_mem_nil a),
      fun x hx => ⟨x, hx, rfl, rfl, rfl⟩, rfl⟩
  | ok events =>
    have hl : ∀ evt ∈ events, reg.contains evt.eventType = true →
        evt.id ≠ e.id := by
      intro evt hevt hc heq
      have hty : evt.eventType = e.eventType :=
        hids evt (fetch_ok_subset store limit events hf evt hevt) heq
      rw [hty, hreg] at hc
      cases hc
    obtain ⟨hmem, htr, hshape, hlen⟩ :=
      relay_fold_no_touch reg pubOk e events store [] hl
    exact ⟨hmem,
      fun a ha => (htr a ha).resolve_left (fun hx => absurd hx (List.not_mem_nil a)),
      hshape, hlen⟩

/-- C4: an outbox event whose `eventType` has no Registry entry is never
published nor marked by the registry-typed relayer — no cycle's call trace
contains any action for its id — and it remains pending in the store and
is returned again (successfully) by the fetch of every subsequent cycle.
Hypotheses: the event starts pending in a store of well-formed rows whose
ids determine their event types, and the store fits in the batch size. -/
theorem c4_unregistered_event_skipped (reg : List String)
    (sched : Nat → Nat → Bool) (limit : Nat) (s0 : List OutboxEvent)
    (e : OutboxEvent)
    (he : e ∈ s0) (hp : e.processed = false)
    (hreg : reg.contains e.eventType = false)
    (hids : ∀ r ∈ s0, r.id = e.id → r.eventType = e.eventType)
    (hwf : ∀ r ∈ s0, r.wellFormed = true)
    (hlim : s0.length ≤ limit) :
    ∀ n, e ∈ Relayer.states reg sched limit s0 n ∧
      (∀ a ∈ Relayer.traceAt reg sched limit s0 n, WAction.aid a ≠ e.id) ∧
      (∃ rows, OutboxRepoSQL.FetchPendingOutbox
          (Relayer.states reg sched limit s0 n) limit = .ok rows ∧
        e ∈ rows) := by
  have hInv : ∀ n, e ∈ Relayer.states reg sched limit s0 n ∧
      (∀ r ∈ Relayer.states reg sched limit s0 n,
        r.id = e.id → r.eventType = e.eventType) ∧
      (∀ r ∈ Relayer.states reg sched limit s0 n, r.wellFormed = true) ∧
      (Relayer.states reg sched limit s0 n).length = s0.length := by
    intro n
    induction n with
    | zero => exact ⟨he, hids, hwf, rfl⟩
    | succ n ihn =>
      obtain ⟨ihe, ihids, ihwf, ihlen⟩ := ihn
      obtain ⟨hmem, _, hshape, hlen⟩ :=
        relay_ProcessBatch_no_touch reg (sched n) limit
          (Relayer.states reg sched limit s0 n) e hreg ihids
      refine ⟨hmem ihe, ?_, ?_, ?_⟩
      · intro r hr hid
        obtain ⟨x0, hx0, hid0, hty0, _⟩ := hshape r hr
        rw [hty0]
        exact ihids x0 hx0 (hid0 ▸ hid)
      · intro r hr
        obtain ⟨x0, hx0, _, _, hwf0⟩ := hshape r hr
        rw [hwf0]
        exact ihwf x0 hx0
      · show (Relayer.ProcessBatch reg (sched n) limit
            (Relayer.states reg sched limit s0 n)).1.length = s0.length
        rw [hlen, ihlen]
  intro n
  obtain ⟨he', hids', hwf', hlen'⟩ := hInv n
  refine ⟨he', ?_, ?_⟩
  · exact (relay_ProcessBatch_no_touch reg (sched n) limit
      (Relayer.states reg sched limit s0 n) e hreg hids').2.1
  · refine fetch_complete (Relayer.states reg sched limit s0 n) limit e he'
      hp hwf' ?_
    calc ((Relayer.states reg sched limit s0 n).filter
          (fun x => !x.processed)).length
        ≤ (Relayer.states reg sched limit s0 n).length :=
          List.length_filter_le _ _
      _ = s0.length := hlen'
      _ ≤ limit := hlim

/-- Witness for C4: a single pending event of the unregistered type
`user.ghost` survives cycle 1 untouched, untraced, and still fetched. -/
theorem c4_witness :
    ghostEvent ∈ Relayer.states ["user.created"] (fun _ _ => true) 10
      [ghostEvent] 1 ∧
    (∀ a ∈ Relayer.traceAt ["user.created"] (fun _ _ => true) 10
        [ghostEvent] 1, WAction.aid a ≠ ghostEvent.id) ∧
    (∃ rows, OutboxRepoSQL.FetchPendingOutbox
        (Relayer.states ["user.created"] (fun _ _ => true) 10 [ghostEvent] 1)
        10 = .ok rows ∧ ghostEvent ∈ rows) :=
  c4_unregistered_event_skipped ["user.created"] (fun _ _ => true) 10
    [ghostEvent] ghostEvent (by decide) (by decide) (by decide) (by decide)
    (by decide) (by decide) 1

end Hexagolab
